import Mathlib

set_option maxRecDepth 8192

/-! Verification of the kitty prewarm/fork-server subsystem (`kitty/prewarm.py`).

We give a shallow embedding of the pure core of that module: the Supervisor's
per-line command dispatch (`handle_input`), its death handler
(`handle_child_death`), the Controller-side client methods
(`reload_kitty_config`, `__call__`, `mark_child_as_ready`), the forked child's
entry point (`child_main`) as an action trace, the shared-memory payload layout,
and the `MemoryViewReadWrapperBytes` stream.  OS-level nondeterminism (the
outcome of the `fork()` helper, the fds returned by `os.pipe()`, the lines
arriving on a pipe) is passed in as explicit data; side effects on fds are
returned as explicit effect lists.  Python dicts are embedded as association
lists with unique-key lookup/erase/insert; a Python exception escaping a handler
is an `Except.error`. -/

namespace Prewarm

/-- Lookup in an association list, first match wins (Python dict lookup). -/
def lookupK {β : Type} : List (Nat × β) → Nat → Option β
  | [], _ => none
  | (a, b) :: m, k => if a = k then some b else lookupK m k

/-- Remove a key (Python `del d[k]` / `d.pop(k)` on the new-map side). -/
def eraseK {β : Type} (m : List (Nat × β)) (k : Nat) : List (Nat × β) :=
  m.filter (fun p => p.1 != k)

/-- Python `d[k] = v` (extensionally: k now maps to v, other keys unchanged). -/
def insertK {β : Type} (m : List (Nat × β)) (k : Nat) (v : β) : List (Nat × β) :=
  (k, v) :: eraseK m k

theorem eraseK_cons {β : Type} (a : Nat) (b : β) (m : List (Nat × β)) (k : Nat) :
    eraseK ((a, b) :: m) k =
      if a = k then eraseK m k else (a, b) :: eraseK m k := by
  by_cases h : a = k <;> simp [eraseK, List.filter_cons, h]

theorem lookupK_eraseK_self {β : Type} (m : List (Nat × β)) (k : Nat) :
    lookupK (eraseK m k) k = none := by
  induction m with
  | nil => rfl
  | cons p m ih =>
    obtain ⟨a, b⟩ := p
    rw [eraseK_cons]
    by_cases h : a = k
    · simpa [h] using ih
    · simpa [lookupK, h] using ih

theorem lookupK_eraseK_ne {β : Type} (m : List (Nat × β)) (k k' : Nat) (h : k' ≠ k) :
    lookupK (eraseK m k) k' = lookupK m k' := by
  induction m with
  | nil => rfl
  | cons p m ih =>
    obtain ⟨a, b⟩ := p
    rw [eraseK_cons]
    by_cases hk : a = k
    · subst hk
      simpa [lookupK, Ne.symm h] using ih
    · rw [if_neg hk]
      by_cases hk' : a = k'
      · subst hk'
        simp [lookupK]
      · simpa [lookupK, hk'] using ih

theorem lookupK_insertK_self {β : Type} (m : List (Nat × β)) (k : Nat) (v : β) :
    lookupK (insertK m k v) k = some v := by
  simp [insertK, lookupK]

theorem lookupK_insertK_ne {β : Type} (m : List (Nat × β)) (k k' : Nat) (v : β)
    (h : k' ≠ k) : lookupK (insertK m k v) k' = lookupK m k' := by
  simp only [insertK, lookupK, Ne.symm h, if_neg]
  exact lookupK_eraseK_ne m k k' h

/-- `Child` dataclass of `prewarm.py`. -/
structure Child where
  child_id : Nat
  child_process_pid : Nat
deriving DecidableEq

/-- Outcome of the OS-dependent `fork(payload, r)` helper call made by the
Supervisor while handling a `fork:` line: either `(child_pid, child_death_fd)`
or a raised exception message. -/
inductive ForkResult where
  | ok (child_pid : Nat) (child_death_fd : Nat)
  | err (msg : String)
deriving DecidableEq

/-- One parsed command line of the Supervisor's stdin protocol.  For `fork:`
the fds of the readiness pipe made by `os.pipe()` and the outcome of the
`fork` helper are supplied as data. -/
inductive SupLine where
  | reload (payload : String)
  | ready (child_id : Nat)
  | fork (r w : Nat) (res : ForkResult)
  | echo (payload : String)
deriving DecidableEq

/-- A side effect the Supervisor performs on a file descriptor. -/
inductive FdEffect where
  | write1 (fd : Nat)
  | close (fd : Nat)
deriving DecidableEq

/-- The Supervisor's mutable state inside `main`: the three child maps, the id
counter, the two outgoing byte buffers, and the set of registered
death-detector fds.  (`applied_config` records the last config JSON applied by
a `reload_kitty_config:` line.) -/
structure SupState where
  child_ready_fds : List (Nat × Nat)
  child_death_fds : List (Nat × Nat)
  child_id_map : List (Nat × Nat)
  child_id_counter : Nat
  output_buf : String
  child_death_buf : String
  polled_fds : List Nat
  applied_config : Option String
deriving DecidableEq

/-- Python `msg.replace('\n', ' ')` for the single-character pattern. -/
def sanitize (e : String) : String :=
  String.mk (e.data.map (fun c => if c = '\n' then ' ' else c))

/-- The `CHILD:<child_id>:<pid>\n` reply frame. -/
def childFrame (cid pid : Nat) : String :=
  "CHILD:" ++ toString cid ++ ":" ++ toString pid ++ "\n"

/-- The `ERR:<message>\n` reply frame, newlines in the message replaced. -/
def errFrame (e : String) : String :=
  "ERR:" ++ sanitize e ++ "\n"

/-- Per-line dispatch of the Supervisor's `handle_input` (`prewarm.py`
lines 361-394), as run in the parent process (`os.getpid() == self_pid`).
An uncaught Python exception is `Except.error`; note that
`child_ready_fds.pop(child_id)` on the `ready` branch has no default, so an
unknown id raises `KeyError`. -/
def handleLine (st : SupState) : SupLine → Except String (SupState × List FdEffect)
  | .reload payload =>
      .ok ({ st with applied_config := some payload }, [])
  | .ready cid =>
      match lookupK st.child_ready_fds cid with
      | none => .error "KeyError"
      | some cfd =>
          .ok ({ st with child_ready_fds := eraseK st.child_ready_fds cid },
               [.write1 cfd, .close cfd])
  | .fork r _ (.err e) =>
      .ok ({ st with output_buf := st.output_buf ++ errFrame e }, [.close r])
  | .fork r w (.ok pid dfd) =>
      let cid := st.child_id_counter
      .ok ({ st with
              child_id_counter := cid + 1,
              child_id_map := insertK st.child_id_map cid pid,
              child_ready_fds := insertK st.child_ready_fds cid w,
              child_death_fds := insertK st.child_death_fds dfd cid,
              polled_fds := st.polled_fds ++ [dfd],
              output_buf := st.output_buf ++ childFrame cid pid },
           [.close r])
  | .echo payload =>
      .ok ({ st with output_buf := st.output_buf ++ payload ++ "\n" }, [])

/-- `handle_child_death` (`prewarm.py` lines 422-431): unregister and delete
the death fd, close and drop a still-pending readiness fd, pop the pid and
append it to `child_death_buf`.  `del child_death_fds[fd]` and
`child_id_map.pop(cid)` (no default) raise `KeyError` when the key is absent;
`child_ready_fds.pop(cid, None)` does not. -/
def handle_child_death (st : SupState) (dead_child_fd dead_child_id : Nat) :
    Except String (SupState × List FdEffect) :=
  match lookupK st.child_death_fds dead_child_fd with
  | none => .error "KeyError"
  | some _ =>
    let st1 : SupState :=
      { st with
          polled_fds := st.polled_fds.filter (fun f => f != dead_child_fd),
          child_death_fds := eraseK st.child_death_fds dead_child_fd }
    let step2 : List FdEffect × SupState :=
      match lookupK st1.child_ready_fds dead_child_id with
      | some xfd =>
          ([FdEffect.close xfd],
           { st1 with child_ready_fds := eraseK st1.child_ready_fds dead_child_id })
      | none => ([], st1)
    match lookupK step2.2.child_id_map dead_child_id with
    | none => .error "KeyError"
    | some pid =>
      .ok ({ step2.2 with
              child_id_map := eraseK step2.2.child_id_map dead_child_id,
              child_death_buf := step2.2.child_death_buf ++ toString pid ++ "\n" },
           step2.1)

/-- The Supervisor's state at the top of `main`'s loop. -/
def initSup : SupState :=
  { child_ready_fds := [], child_death_fds := [], child_id_map := [],
    child_id_counter := 0, output_buf := "", child_death_buf := "",
    polled_fds := [], applied_config := none }

/-- C1: the spec says a `ready:<child_id>` frame whose id is no longer in the
readiness map is ignored silently and the loop continues.  The code instead
pops without a default: on the very first `ready:7` (empty readiness map) a
`KeyError` escapes `handle_input` and tears the Supervisor down. -/
theorem ready_unknown_child_raises :
    handleLine initSup (.ready 7) = .error "KeyError" := rfl

/-- `PrewarmProcess.reload_kitty_config` (`prewarm.py` lines 114-116): when the
worker has been started it passes a plain string literal (the `f` prefix is
missing in the source) to `send_to_prewarm_process`, so the bytes sent never
depend on `self.prewarm_config`. -/
def reload_kitty_config_sent (worker_started : Bool) ( _prewarm_config : String) :
    Option String :=
  if worker_started then some "reload_kitty_config:\x7bself.prewarm_config\x7d\n"
  else none

/-- C2: the spec says the frame is `reload_kitty_config:<json>\n` with the
current config JSON as payload.  The code sends the constant literal
`reload_kitty_config:{self.prewarm_config}\n` instead, which differs from the
specified frame for the example configuration. -/
theorem reload_sends_literal_not_json :
    reload_kitty_config_sent true "\x7b\"paths\": [], \"overrides\": []\x7d"
        = some "reload_kitty_config:\x7bself.prewarm_config\x7d\n" ∧
    reload_kitty_config_sent true "\x7b\"paths\": [], \"overrides\": []\x7d"
        ≠ some ("reload_kitty_config:" ++ "\x7b\"paths\": [], \"overrides\": []\x7d" ++ "\n") := by
  exact ⟨rfl, by decide⟩

/-- One `fork:` line processed by the Supervisor: the readiness-pipe fds
`(r, w)` returned by `os.pipe()` and the outcome of the `fork` helper call. -/
structure ForkEv where
  r : Nat
  w : Nat
  res : ForkResult

/-- Processing one `fork:` line.  The `fork` branch of `handleLine` always
returns `.ok` (every exception of the helper is caught), so the error arm is
dead. -/
def stepFork (st : SupState) (ev : ForkEv) : SupState :=
  match handleLine st (.fork ev.r ev.w ev.res) with
  | .ok (st', _) => st'
  | .error _ => st

/-- Processing a sequence of `fork:` lines. -/
def runForks (st : SupState) : List ForkEv → SupState
  | [] => st
  | ev :: rest => runForks (stepFork st ev) rest

/-- Whether the fork helper succeeded for this line. -/
def isOkFork (ev : ForkEv) : Bool :=
  match ev.res with
  | .ok _ _ => true
  | .err _ => false

/-- The child ids emitted in `CHILD:` replies over a sequence of fork lines,
the counter starting at `c`. -/
def forkIds : List ForkEv → Nat → List Nat
  | [], _ => []
  | ev :: rest, c =>
    match ev.res with
    | .ok _ _ => c :: forkIds rest (c + 1)
    | .err _ => forkIds rest c

/-- The reply frames appended to `output_buf` over a sequence of fork lines,
the counter starting at `c`. -/
def renderForkFrames : List ForkEv → Nat → String
  | [], _ => ""
  | ev :: rest, c =>
    match ev.res with
    | .ok pid _ => childFrame c pid ++ renderForkFrames rest (c + 1)
    | .err e => errFrame e ++ renderForkFrames rest c

theorem string_data_append (a b : String) : (a ++ b).data = a.data ++ b.data := rfl

theorem string_append_assoc (a b c : String) : a ++ b ++ c = a ++ (b ++ c) := by
  cases a; cases b; cases c
  simp [String.ext_iff, string_data_append]

theorem runForks_output (rs : List ForkEv) (st : SupState) :
    (runForks st rs).output_buf =
      st.output_buf ++ renderForkFrames rs st.child_id_counter := by
  induction rs generalizing st with
  | nil =>
    cases st
    simp [runForks, renderForkFrames, String.ext_iff, string_data_append]
  | cons ev rest ih =>
    obtain ⟨r, w, res⟩ := ev
    cases res with
    | ok pid dfd =>
      rw [runForks, ih]
      simp [stepFork, handleLine, renderForkFrames, string_append_assoc]
    | err e =>
      rw [runForks, ih]
      simp [stepFork, handleLine, renderForkFrames, string_append_assoc]

theorem runForks_counter (rs : List ForkEv) (st : SupState) :
    (runForks st rs).child_id_counter =
      st.child_id_counter + rs.countP isOkFork := by
  induction rs generalizing st with
  | nil => simp [runForks]
  | cons ev rest ih =>
    obtain ⟨r, w, res⟩ := ev
    cases res with
    | ok pid dfd =>
      rw [runForks, ih]
      simp [stepFork, handleLine, List.countP_cons, isOkFork]
      omega
    | err e =>
      rw [runForks, ih]
      simp [stepFork, handleLine, List.countP_cons, isOkFork]

theorem forkIds_eq_map_range (rs : List ForkEv) (c : Nat) :
    forkIds rs c = (List.range (rs.countP isOkFork)).map (c + ·) := by
  induction rs generalizing c with
  | nil => simp [forkIds]
  | cons ev rest ih =>
    obtain ⟨r, w, res⟩ := ev
    cases res with
    | ok pid dfd =>
      simp only [forkIds]
      rw [ih (c + 1)]
      have hc : List.countP isOkFork (⟨r, w, .ok pid dfd⟩ :: rest) =
          List.countP isOkFork rest + 1 := by
        simp [List.countP_cons, isOkFork]
      rw [hc, List.range_succ_eq_map, List.map_cons, List.map_map]
      simp only [Nat.add_zero, List.cons.injEq, true_and]
      apply List.map_congr_left
      intro a _
      simp only [Function.comp_apply]
      omega
    | err e =>
      simp only [forkIds]
      rw [ih c]
      have hc : List.countP isOkFork (⟨r, w, .err e⟩ :: rest) =
          List.countP isOkFork rest := by
        simp [List.countP_cons, isOkFork]
      rw [hc]

/-- C3: over any sequence of `fork:` lines processed by one Supervisor from its
initial state, the output buffer consists of the rendered reply frames where
successful forks get consecutive counter values; the emitted child ids are
exactly `0, 1, ..., k-1` for `k` successful forks (strictly increasing, hence
unique, starting at 0), and failed forks do not consume an id. -/
theorem fork_ids_strictly_increasing (rs : List ForkEv) :
    (runForks initSup rs).output_buf = renderForkFrames rs 0 ∧
    forkIds rs 0 = List.range (rs.countP isOkFork) ∧
    List.Pairwise (· < ·) (forkIds rs 0) := by
  refine ⟨?_, ?_, ?_⟩
  · simpa [initSup] using runForks_output rs initSup
  · simpa using forkIds_eq_map_range rs 0
  · have h := forkIds_eq_map_range rs 0
    simp only [Nat.zero_add] at h
    rw [h]
    simpa using List.pairwise_lt_range _

theorem newline_not_mem_sanitize (e : String) : '\n' ∉ (sanitize e).data := by
  intro h
  simp only [sanitize, List.mem_map] at h
  obtain ⟨c, _, hc⟩ := h
  by_cases h' : c = '\n'
  · rw [if_pos h'] at hc
    exact absurd hc (by decide)
  · rw [if_neg h'] at hc
    exact h' hc

theorem errFrame_newline_count (e : String) : (errFrame e).data.count '\n' = 1 := by
  have h0 : (sanitize e).data.count '\n' = 0 :=
    List.count_eq_zero.mpr (newline_not_mem_sanitize e)
  simp [errFrame, string_data_append, List.count_append, h0]

/-- C4: a `fork:` line whose processing raised an exception appends exactly one
`ERR:` frame (the message's newlines replaced by spaces, so the frame holds
exactly one newline), the handler returns normally, and a subsequent
`echo:<text>` line still appends `<text>\n`. -/
theorem fork_error_reports_and_survives (st : SupState) (r w : Nat) (e t : String) :
    ∃ st1,
      handleLine st (.fork r w (.err e)) = .ok (st1, [.close r]) ∧
      st1.output_buf = st.output_buf ++ errFrame e ∧
      '\n' ∉ (sanitize e).data ∧
      (errFrame e).data.count '\n' = 1 ∧
      handleLine st1 (.echo t) =
        .ok ({ st1 with output_buf := st1.output_buf ++ t ++ "\n" }, []) := by
  exact ⟨_, rfl, rfl, newline_not_mem_sanitize e, errFrame_newline_count e, rfl⟩

/-- C6: when a death-detector fd registered for child `cid` (with pid `pid`)
signals hang-up, `handle_child_death` removes exactly that fd's entry from the
death map, closes and drops the child's pending readiness fd when one exists
(and performs no fd effect otherwise), appends `<pid>\n` to `child_death_buf`,
and leaves the death-map, readiness-map and id-map entries of every other
child unchanged. -/
theorem child_death_effects (st : SupState) (fd cid pid : Nat)
    (hfd : lookupK st.child_death_fds fd = some cid)
    (hpid : lookupK st.child_id_map cid = some pid) :
    ∃ st' effs, handle_child_death st fd cid = .ok (st', effs) ∧
      lookupK st'.child_death_fds fd = none ∧
      (∀ fd', fd' ≠ fd →
        lookupK st'.child_death_fds fd' = lookupK st.child_death_fds fd') ∧
      (∀ xfd, lookupK st.child_ready_fds cid = some xfd →
        effs = [.close xfd] ∧ lookupK st'.child_ready_fds cid = none) ∧
      (lookupK st.child_ready_fds cid = none → effs = []) ∧
      (∀ cid', cid' ≠ cid →
        lookupK st'.child_ready_fds cid' = lookupK st.child_ready_fds cid') ∧
      st'.child_death_buf = st.child_death_buf ++ toString pid ++ "\n" ∧
      lookupK st'.child_id_map cid = none ∧
      (∀ cid', cid' ≠ cid →
        lookupK st'.child_id_map cid' = lookupK st.child_id_map cid') := by
  obtain ⟨crf, cdf, cim, cc, ob, db, pf, ac⟩ := st
  simp only at hfd hpid
  cases hr : lookupK crf cid with
  | none =>
    have heq : handle_child_death ⟨crf, cdf, cim, cc, ob, db, pf, ac⟩ fd cid =
        .ok (⟨crf, eraseK cdf fd, eraseK cim cid, cc, ob,
              db ++ toString pid ++ "\n", pf.filter (fun f => f != fd), ac⟩, []) := by
      simp only [handle_child_death, hfd, hr, hpid]
    refine ⟨_, _, heq, ?_, ?_, ?_, ?_, ?_, ?_, ?_, ?_⟩
    · exact lookupK_eraseK_self _ _
    · exact fun fd' h => lookupK_eraseK_ne _ _ _ h
    · intro xfd hx
      exact absurd hx (by simp)
    · intro _
      rfl
    · intro cid' _
      rfl
    · rfl
    · exact lookupK_eraseK_self _ _
    · exact fun cid' h => lookupK_eraseK_ne _ _ _ h
  | some xfd0 =>
    have heq : handle_child_death ⟨crf, cdf, cim, cc, ob, db, pf, ac⟩ fd cid =
        .ok (⟨eraseK crf cid, eraseK cdf fd, eraseK cim cid, cc, ob,
              db ++ toString pid ++ "\n", pf.filter (fun f => f != fd), ac⟩,
             [.close xfd0]) := by
      simp only [handle_child_death, hfd, hr, hpid]
    refine ⟨_, _, heq, ?_, ?_, ?_, ?_, ?_, ?_, ?_, ?_⟩
    · exact lookupK_eraseK_self _ _
    · exact fun fd' h => lookupK_eraseK_ne _ _ _ h
    · intro xfd hx
      obtain rfl : xfd0 = xfd := by injection hx
      exact ⟨rfl, lookupK_eraseK_self _ _⟩
    · intro hx
      exact absurd hx (by simp)
    · exact fun cid' h => lookupK_eraseK_ne _ _ _ h
    · rfl
    · exact lookupK_eraseK_self _ _
    · exact fun cid' h => lookupK_eraseK_ne _ _ _ h

/-- A concrete Supervisor state with one live child: id 1, pid 77, readiness
write fd 40, death-detector fd 10. -/
def supW : SupState :=
  { child_ready_fds := [(1, 40)], child_death_fds := [(10, 1)],
    child_id_map := [(1, 77)], child_id_counter := 2, output_buf := "",
    child_death_buf := "", polled_fds := [10], applied_config := none }

theorem child_death_effects_witness :
    ∃ st' effs, handle_child_death supW 10 1 = .ok (st', effs) ∧
      lookupK st'.child_death_fds 10 = none ∧
      st'.child_death_buf = "77\n" := by
  obtain ⟨st', effs, h1, h2, _, _, _, _, h7, _, _⟩ :=
    child_death_effects supW 10 1 77 rfl rfl
  refine ⟨st', effs, h1, h2, ?_⟩
  rw [h7]
  decide

/-- `PrewarmProcess.mark_child_as_ready` (`prewarm.py` lines 188-193): pop the
id from the local children table (with default `None`); if it was absent
return `False` without sending anything, else send `ready:<child_id>\n` and
return `True`.  Result: (new table, return value, frame sent). -/
def mark_child_as_ready (children : List (Nat × Child)) (child_id : Nat) :
    List (Nat × Child) × Bool × Option String :=
  match lookupK children child_id with
  | none => (children, false, none)
  | some _ =>
    (eraseK children child_id, true, some ("ready:" ++ toString child_id ++ "\n"))

/-- C9: an unknown id returns `False` and sends nothing; a known id is removed
from the table (other entries unchanged), `ready:<child_id>\n` is sent and
`True` returned; a second call with the same id then returns `False` and sends
nothing. -/
theorem mark_child_as_ready_spec (children : List (Nat × Child)) (cid : Nat) :
    (lookupK children cid = none →
      mark_child_as_ready children cid = (children, false, none)) ∧
    (∀ c, lookupK children cid = some c →
      mark_child_as_ready children cid =
        (eraseK children cid, true, some ("ready:" ++ toString cid ++ "\n")) ∧
      lookupK (eraseK children cid) cid = none ∧
      (∀ k, k ≠ cid → lookupK (eraseK children cid) k = lookupK children k) ∧
      mark_child_as_ready (eraseK children cid) cid =
        (eraseK children cid, false, none)) := by
  constructor
  · intro h
    simp [mark_child_as_ready, h]
  · intro c h
    refine ⟨by simp [mark_child_as_ready, h], lookupK_eraseK_self _ _,
      fun k hk => lookupK_eraseK_ne _ _ _ hk, ?_⟩
    simp [mark_child_as_ready, lookupK_eraseK_self]

theorem mark_child_as_ready_spec_witness :
    mark_child_as_ready [(3, ⟨3, 99⟩)] 3 = ([], true, some "ready:3\n") ∧
    mark_child_as_ready [] 3 = ([], false, none) := by
  have h := ((mark_child_as_ready_spec [(3, ⟨3, 99⟩)] 3).2 ⟨3, 99⟩ rfl).1
  constructor
  · rw [h]
    decide
  · exact (mark_child_as_ready_spec [] 3).1 rfl

/-- Python `line.startswith(p)`. -/
def pyStartsWith (l p : String) : Bool := p.data.isPrefixOf l.data

/-- Python `s.split(c)` for a one-character separator. -/
def splitChar (c : Char) : List Char → List (List Char)
  | [] => [[]]
  | x :: xs =>
    match splitChar c xs with
    | [] => [[x]]
    | y :: ys => if x = c then [] :: y :: ys else (x :: y) :: ys

/-- Python `s.split(sep, 1)[-1]`: everything after the first separator, the
whole string when the separator does not occur. -/
def pyAfterFirst (sep : Char) (l : List Char) : List Char :=
  match l.dropWhile (fun c => c != sep) with
  | [] => l
  | _ :: rest => rest

/-- Python `int(s)` for a non-negative decimal numeral, `none` for the
`ValueError` cases relevant here. -/
def decimalToNat? (l : List Char) : Option Nat :=
  if l = [] then none
  else l.foldl (fun acc c =>
    match acc with
    | none => none
    | some n => if c.isDigit then some (n * 10 + (c.toNat - 48)) else none)
    (some 0)

/-- Parsing of a `CHILD:` reply line in `PrewarmProcess.__call__`
(`_, cid, pid = line.split(':')` then `int(...)`); `none` models the raised
`ValueError` on a malformed line. -/
def parseChildLine (l : String) : Option (Nat × Nat) :=
  match splitChar ':' l.data with
  | [_, c, p] =>
    match decimalToNat? c, decimalToNat? p with
    | some ci, some pi => some (ci, pi)
    | _, _ => none
  | _ => none

/-- Outcome of the reply-processing loop of `PrewarmProcess.__call__`. -/
inductive ForkCallOutcome where
  | childRet (c : Child) (children : List (Nat × Child))
  | rejected (msg : String)
  | valueError
  | timedOut
deriving DecidableEq

/-- The reply loop of `PrewarmProcess.__call__` (`prewarm.py` lines 146-166)
over the newline-split lines received within the 2 s budget; exhausting the
list models the budget expiring.  Returns the outcome together with the final
`unlink_on_exit` flag of the shared-memory region (`True` at entry). -/
def forkReplyLoop (children : List (Nat × Child)) (unlink : Bool) :
    List String → ForkCallOutcome × Bool
  | [] => (.timedOut, unlink)
  | l :: ls =>
    if pyStartsWith l "CHILD:" then
      match parseChildLine l with
      | some (cid, pid) =>
        (.childRet ⟨cid, pid⟩ (insertK children cid ⟨cid, pid⟩), false)
      | none => (.valueError, unlink)
    else if pyStartsWith l "ERR:" then
      (.rejected (String.mk (pyAfterFirst ':' l.data)), unlink)
    else forkReplyLoop children unlink ls

theorem forkReplyLoop_skip (children : List (Nat × Child)) (u : Bool)
    (pre ls : List String)
    (hpre : ∀ x ∈ pre,
      pyStartsWith x "CHILD:" = false ∧ pyStartsWith x "ERR:" = false) :
    forkReplyLoop children u (pre ++ ls) = forkReplyLoop children u ls := by
  induction pre with
  | nil => rfl
  | cons x xs ih =>
    have hx := hpre x (List.mem_cons_self _ _)
    have hxs := fun y hy => hpre y (List.mem_cons_of_mem _ hy)
    simp only [List.cons_append, forkReplyLoop, hx.1, hx.2, Bool.false_eq_true,
      if_false]
    exact ih hxs

/-- C5: scanning the received lines, lines with neither reply prefix are
skipped; the first `CHILD:<id>:<pid>` line yields the stored-and-returned
child record with the region's unlink-on-exit flag cleared; a first `ERR:<msg>`
line yields a failure carrying `<msg>` with the flag still set; and if the
lines run out (the 2 s budget expires with no reply) the call times out with
the flag still set. -/
theorem fork_call_reply_spec (children : List (Nat × Child))
    (pre rest : List String) (l : String) (cid pid : Nat)
    (hpre : ∀ x ∈ pre,
      pyStartsWith x "CHILD:" = false ∧ pyStartsWith x "ERR:" = false) :
    (pyStartsWith l "CHILD:" = true → parseChildLine l = some (cid, pid) →
      forkReplyLoop children true (pre ++ l :: rest) =
        (.childRet ⟨cid, pid⟩ (insertK children cid ⟨cid, pid⟩), false)) ∧
    (pyStartsWith l "CHILD:" = false → pyStartsWith l "ERR:" = true →
      forkReplyLoop children true (pre ++ l :: rest) =
        (.rejected (String.mk (pyAfterFirst ':' l.data)), true)) ∧
    forkReplyLoop children true pre = (.timedOut, true) := by
  refine ⟨?_, ?_, ?_⟩
  · intro hc hp
    rw [forkReplyLoop_skip children true pre _ hpre]
    simp [forkReplyLoop, hc, hp]
  · intro hc he
    rw [forkReplyLoop_skip children true pre _ hpre]
    simp [forkReplyLoop, hc, he]
  · have h := forkReplyLoop_skip children true pre [] hpre
    rw [List.append_nil] at h
    rw [h]
    rfl

theorem fork_call_reply_spec_witness :
    forkReplyLoop [] true ["noise", "CHILD:2:55"] =
      (.childRet ⟨2, 55⟩ (insertK [] 2 ⟨2, 55⟩), false) ∧
    forkReplyLoop [] true ["noise", "ERR:boom"] = (.rejected "boom", true) ∧
    forkReplyLoop [] true ["noise"] = (.timedOut, true) := by
  have hpre : ∀ x ∈ ["noise"],
      pyStartsWith x "CHILD:" = false ∧ pyStartsWith x "ERR:" = false := by
    decide
  have h1 := (fork_call_reply_spec [] ["noise"] [] "CHILD:2:55" 2 55 hpre).1
    (by decide) (by decide)
  have h2 := (fork_call_reply_spec [] ["noise"] [] "ERR:boom" 2 55 hpre).2.1
    (by decide) (by decide)
  have h3 := (fork_call_reply_spec [] ["noise"] [] "x" 0 0 hpre).2.2
  exact ⟨h1, h2.trans (by decide), h3⟩

/-- Modelled from the spec: `kitty.shm.SharedMemory` is not part of this
repository's sources.  Spec §6 gives the region layout
`[ size:uint32_le | json_payload:size bytes | stdin_payload:stdin_size bytes ]`,
so `SharedMemory.num_bytes_for_size` is 4. -/
def num_bytes_for_size : Nat := 4

/-- Modelled from the spec: the little-endian uint32 size prefix. -/
def encodeLE32 (n : Nat) : List Nat :=
  [n % 256, n / 256 % 256, n / 65536 % 256, n / 16777216 % 256]

/-- Modelled from the spec: decoding the little-endian uint32 size prefix. -/
def decodeLE32 (bs : List Nat) : Nat :=
  match bs with
  | [a, b, c, d] => a + 256 * b + 65536 * c + 16777216 * d
  | _ => 0

/-- The region bytes the Controller writes in `PrewarmProcess.__call__`
(`prewarm.py` lines 135-145): `shm.write_data_with_size(json)` (size prefix
then the JSON bytes, per spec §4.2/§6) followed by `shm.write(stdin_data)`,
in a region allocated with exactly
`num_bytes_for_size + len(json) + len(stdin)` bytes. -/
def writeRegionBytes (json stdinData : List Nat) : List Nat :=
  encodeLE32 json.length ++ json ++ stdinData

/-- Modelled from the spec: `shm.read_data_with_size()` in `fork` reads the
size prefix and then that many bytes of JSON. -/
def read_data_with_size (region : List Nat) : List Nat :=
  (region.drop num_bytes_for_size).take
    (decodeLE32 (region.take num_bytes_for_size))

/-- Modelled from the spec: `shm.tell()` right after `read_data_with_size`,
the offset where the stdin payload starts. -/
def tellAfterRead (region : List Nat) : Nat :=
  num_bytes_for_size + decodeLE32 (region.take num_bytes_for_size)

/-- The slice `memoryview(shm.mmap)[pos:pos + sz]` the child installs as its
stdin (`fork`, `prewarm.py` lines 316-319). -/
def childStdinSlice (region : List Nat) (pos sz : Nat) : List Nat :=
  (region.drop pos).take sz

theorem decodeLE32_encodeLE32 (n : Nat) (h : n < 4294967296) :
    decodeLE32 (encodeLE32 n) = n := by
  simp only [encodeLE32, decodeLE32]
  omega

/-- C7: for stdin bytes of length `n > 0`, the Controller writes prefix, JSON
and stdin contiguously into a region of exactly `header + |json| + n` bytes,
and the `n` bytes following the JSON payload at the recorded offset — the
slice the child installs as its stdin — are byte-identical to the stdin bytes
the Controller supplied. -/
theorem stdin_round_trip (json s : List Nat) (hj : json.length < 4294967296)
    ( _hs : 0 < s.length) :
    (writeRegionBytes json s).length =
      num_bytes_for_size + json.length + s.length ∧
    read_data_with_size (writeRegionBytes json s) = json ∧
    tellAfterRead (writeRegionBytes json s) =
      num_bytes_for_size + json.length ∧
    childStdinSlice (writeRegionBytes json s)
      (tellAfterRead (writeRegionBytes json s)) s.length = s := by
  have hlen : (encodeLE32 json.length).length = num_bytes_for_size := rfl
  have htake : (writeRegionBytes json s).take num_bytes_for_size =
      encodeLE32 json.length := by
    rw [writeRegionBytes, List.append_assoc, ← hlen, List.take_left]
  have hdrop : (writeRegionBytes json s).drop num_bytes_for_size = json ++ s := by
    rw [writeRegionBytes, List.append_assoc, ← hlen, List.drop_left]
  have hdec : decodeLE32 ((writeRegionBytes json s).take num_bytes_for_size) =
      json.length := by
    rw [htake, decodeLE32_encodeLE32 _ hj]
  refine ⟨?_, ?_, ?_, ?_⟩
  · simp [writeRegionBytes, encodeLE32, num_bytes_for_size]
    omega
  · rw [read_data_with_size, hdec, hdrop, List.take_left]
  · rw [tellAfterRead, hdec]
  · rw [childStdinSlice, tellAfterRead, hdec, writeRegionBytes,
      List.append_assoc]
    have : num_bytes_for_size + json.length =
        (encodeLE32 json.length).length + json.length := by rw [hlen]
    rw [this, List.drop_append, List.drop_left, List.take_length]

theorem stdin_round_trip_witness :
    (writeRegionBytes [1, 2] [9, 8]).length = 8 ∧
    read_data_with_size (writeRegionBytes [1, 2] [9, 8]) = [1, 2] ∧
    childStdinSlice (writeRegionBytes [1, 2] [9, 8])
      (tellAfterRead (writeRegionBytes [1, 2] [9, 8])) 2 = [9, 8] := by
  obtain ⟨h1, h2, _, h4⟩ := stdin_round_trip [1, 2] [9, 8] (by decide) (by decide)
  exact ⟨h1, h2, h4⟩

/-- Poll event bits of the `select` module (Linux values). -/
def POLLIN : Nat := 1

/-- POLLERR bit. -/
def POLLERR : Nat := 8

/-- POLLHUP bit. -/
def POLLHUP : Nat := 16

/-- An observable action of the forked child inside `child_main`. -/
inductive ChildAction where
  | chdir (d : String)
  | setEnv (env : List (String × String))
  | setArgv (argv : List String)
  | pollReady (fd : Nat) (events : Nat)
  | closeFd (fd : Nat)
  | dispatch
deriving DecidableEq

/-- The fork-request fields `child_main` consults via `cmd.get(...)`. -/
structure Cmd where
  tty_name : Option String := none
  cwd : Option String := none
  env : Option (List (String × String)) := none
  argv : Option (List String) := none
  stdin_size : Nat := 0
deriving DecidableEq

/-- The setup actions of `child_main` before the readiness gate: chdir when
`cwd` is truthy, replace the environment when `env` is present, replace argv
when `argv` is truthy. -/
def setupActions (cmd : Cmd) : List ChildAction :=
  (match cmd.cwd with
   | some d => if d = "" then [] else [.chdir d]
   | none => []) ++
  (match cmd.env with
   | some e => [.setEnv e]
   | none => []) ++
  (match cmd.argv with
   | some a => if a = [] then [] else [.setArgv a]
   | none => [])

/-- The action trace of `child_main` (`prewarm.py` lines 255-272): setup, then
block polling the readiness fd registered for `POLLIN | POLLERR | POLLHUP`
until at least one event, close the fd, and only then invoke the dispatcher
entry point. -/
def child_main_trace (cmd : Cmd) (ready_fd : Nat) : List ChildAction :=
  setupActions cmd ++
    [.pollReady ready_fd (POLLIN ||| POLLERR ||| POLLHUP),
     .closeFd ready_fd, .dispatch]

theorem dispatch_not_mem_setup (cmd : Cmd) :
    ChildAction.dispatch ∉ setupActions cmd := by
  obtain ⟨t, c, e, a, sz⟩ := cmd
  intro h
  simp only [setupActions, List.mem_append] at h
  rcases h with (h | h) | h
  · cases c with
    | none => simp at h
    | some d => by_cases hd : d = "" <;> simp [hd] at h
  · cases e with
    | none => simp at h
    | some ev => simp at h
  · cases a with
    | none => simp at h
    | some av => by_cases ha : av = [] <;> simp [ha] at h

/-- C8: wherever the dispatcher invocation occurs in the child's action trace,
it is preceded (strictly, in order) by the completed blocking poll of the
readiness fd for `POLLIN | POLLERR | POLLHUP` and then by the close of that
fd: the child never begins running user code before observing readiness (or
hang-up). -/
theorem dispatch_only_after_readiness (cmd : Cmd) (fd i : Nat)
    (h : (child_main_trace cmd fd)[i]? = some .dispatch) :
    ∃ j k, j < k ∧ k < i ∧
      (child_main_trace cmd fd)[j]? =
        some (.pollReady fd (POLLIN ||| POLLERR ||| POLLHUP)) ∧
      (child_main_trace cmd fd)[k]? = some (.closeFd fd) := by
  have hnm := dispatch_not_mem_setup cmd
  by_cases hi : i < (setupActions cmd).length
  · rw [child_main_trace, List.getElem?_append_left hi] at h
    exact absurd (List.getElem?_mem h) hnm
  · push_neg at hi
    rw [child_main_trace, List.getElem?_append_right hi] at h
    have h2 : i - (setupActions cmd).length = 2 := by
      rcases hm : i - (setupActions cmd).length with _ | _ | _ | n
      · rw [hm] at h
        exact absurd h (by simp)
      · rw [hm] at h
        exact absurd h (by simp)
      · rfl
      · rw [hm] at h
        exact absurd h (by simp)
    refine ⟨(setupActions cmd).length, (setupActions cmd).length + 1,
      by omega, by omega, ?_, ?_⟩
    · rw [child_main_trace, List.getElem?_append_right (Nat.le_refl _)]
      simp
    · rw [child_main_trace, List.getElem?_append_right (Nat.le_add_right _ _)]
      simp

theorem dispatch_only_after_readiness_witness :
    (child_main_trace {} 5)[2]? = some .dispatch ∧
    ∃ j k, j < k ∧ k < 2 ∧
      (child_main_trace {} 5)[j]? =
        some (.pollReady 5 (POLLIN ||| POLLERR ||| POLLHUP)) ∧
      (child_main_trace {} 5)[k]? = some (.closeFd 5) :=
  ⟨by decide, dispatch_only_after_readiness {} 5 2 (by decide)⟩

/-- `MemoryViewReadWrapperBytes` (`prewarm.py` lines 211-227): the wrapped
memoryview (as its byte list) and the read position. -/
structure MVStream where
  mw : List Nat
  pos : Nat
deriving DecidableEq

/-- The effective byte count requested by `read(size)`: Python replaces a
`None` or negative size by `max(0, len(self.mw) - self.pos)`. -/
def MVreqSize (s : MVStream) (size : Option Int) : Nat :=
  match size with
  | none => s.mw.length - s.pos
  | some i => if i < 0 then s.mw.length - s.pos else i.toNat

/-- `MemoryViewReadWrapperBytes.read` (`prewarm.py` lines 220-227): move the
position to `min(len(mw), pos + size)` and return the slice
`mw[oldpos:newpos]`, or `b''` when `newpos <= oldpos`. -/
def MVread (s : MVStream) (size : Option Int) : List Nat × MVStream :=
  let oldpos := s.pos
  let newpos := min s.mw.length (s.pos + MVreqSize s size)
  if newpos ≤ oldpos then ([], { s with pos := newpos })
  else ((s.mw.drop oldpos).take (newpos - oldpos), { s with pos := newpos })

/-- A sequence of `read` calls, returning the list of results. -/
def MVreads (s : MVStream) : List (Option Int) → List (List Nat)
  | [] => []
  | sz :: rest => (MVread s sz).1 :: MVreads (MVread s sz).2 rest

theorem MVread_pos (s : MVStream) (sz : Option Int) :
    (MVread s sz).2.pos = min s.mw.length (s.pos + MVreqSize s sz) := by
  simp only [MVread]
  split <;> rfl

theorem MVread_mw (s : MVStream) (sz : Option Int) :
    (MVread s sz).2.mw = s.mw := by
  simp only [MVread]
  split <;> rfl

theorem MVread_bytes (s : MVStream) (sz : Option Int) :
    (MVread s sz).1 =
      (s.mw.drop s.pos).take (min s.mw.length (s.pos + MVreqSize s sz) - s.pos) := by
  simp only [MVread]
  split
  · next h =>
    have h0 : min s.mw.length (s.pos + MVreqSize s sz) - s.pos = 0 := by omega
    rw [h0, List.take_zero]
  · rfl

theorem take_drop_concat (mw : List Nat) (pos newpos : Nat) (h1 : pos ≤ newpos)
    ( _h2 : newpos ≤ mw.length) :
    (mw.drop pos).take (newpos - pos) ++ mw.drop newpos = mw.drop pos := by
  have h : mw.drop newpos = (mw.drop pos).drop (newpos - pos) := by
    rw [List.drop_drop]
    congr 1
    omega
  rw [h, List.take_append_drop]

theorem MVreads_concat (szs : List (Option Int)) :
    ∀ s : MVStream, s.pos ≤ s.mw.length →
    (∀ q, szs.getLast? = some q → q ≠ some 0) →
    (MVreads s szs).getLast? = some [] →
    (MVreads s szs).flatten = s.mw.drop s.pos := by
  induction szs with
  | nil =>
    intro s _ _ hempty
    exact absurd hempty (by simp [MVreads])
  | cons sz rest ih =>
    intro s hpos hlast hempty
    cases rest with
    | nil =>
      have hb : (MVread s sz).1 = [] := by
        simpa [MVreads] using hempty
      have hsz : sz ≠ some 0 := hlast sz (by simp)
      have hlen : s.mw.length ≤ s.pos := by
        by_contra hlt
        push_neg at hlt
        have hq : 1 ≤ MVreqSize s sz := by
          rcases sz with _ | i
          · simp only [MVreqSize]
            omega
          · simp only [MVreqSize]
            split
            · omega
            · next hneg =>
              have hi0 : i ≠ 0 := fun h => hsz (by rw [h])
              omega
        rw [MVread_bytes] at hb
        rcases List.take_eq_nil_iff.mp hb with h | h
        · omega
        · have := List.drop_eq_nil_iff.mp h
          omega
      have hdrop : s.mw.drop s.pos = [] := List.drop_eq_nil_of_le hlen
      simp [MVreads, hb, hdrop]
    | cons r rest' =>
      have hpos' : (MVread s sz).2.pos ≤ (MVread s sz).2.mw.length := by
        rw [MVread_mw, MVread_pos]
        omega
      have hlast' : ∀ q, (r :: rest').getLast? = some q → q ≠ some 0 :=
        fun q hq => hlast q (by rw [List.getLast?_cons_cons]; exact hq)
      have hempty' : (MVreads (MVread s sz).2 (r :: rest')).getLast? = some [] := by
        rw [MVreads, MVreads, List.getLast?_cons_cons, ← MVreads] at hempty
        exact hempty
      have ih' := ih (MVread s sz).2 hpos' hlast' hempty'
      rw [MVread_mw, MVread_pos] at ih'
      rw [MVreads, List.flatten_cons, ih', MVread_bytes]
      exact take_drop_concat s.mw s.pos _ (by omega) (by omega)

/-- C10 counterexample: `read(0)` returns the empty byte string at once, so on
the stream over `[7]` the one-read sequence `[read 0]` ends with an empty
result, yet the concatenation of its results is `[]`, not `bytes(mw)`. -/
theorem mv_read_zero_breaks_concat :
    (MVreads ⟨[7], 0⟩ [some 0]).getLast? = some [] ∧
    (MVreads ⟨[7], 0⟩ [some 0]).flatten ≠ [7] := by
  decide

/-- C10 (amended): `read` with size `None` or negative returns all remaining
bytes; with `size >= 0` it returns exactly `min(size, len(mw) - pos)` bytes in
order from the current position; the position never decreases, never exceeds
`len(mw)`, and the view is unchanged; a read at end-of-stream returns the
empty byte string; and the concatenation of the results of a read sequence
from position 0 that ends with an empty result equals `bytes(mw)` provided
the final read requests a nonzero amount (size `None`, negative or positive)
— excluded is only `read(0)`, which returns `b''` without being at
end-of-stream. -/
theorem mv_stream_read_spec :
    (∀ s : MVStream, s.pos ≤ s.mw.length →
      (MVread s none).1 = s.mw.drop s.pos ∧
      ∀ i : Int, i < 0 → (MVread s (some i)).1 = s.mw.drop s.pos) ∧
    (∀ s : MVStream, s.pos ≤ s.mw.length → ∀ i : Int, 0 ≤ i →
      (MVread s (some i)).1 =
        (s.mw.drop s.pos).take (min i.toNat (s.mw.length - s.pos)) ∧
      (MVread s (some i)).1.length = min i.toNat (s.mw.length - s.pos)) ∧
    (∀ (s : MVStream) (sz : Option Int), s.pos ≤ s.mw.length →
      s.pos ≤ (MVread s sz).2.pos ∧ (MVread s sz).2.pos ≤ s.mw.length ∧
      (MVread s sz).2.mw = s.mw) ∧
    (∀ (s : MVStream) (sz : Option Int), s.pos = s.mw.length →
      (MVread s sz).1 = []) ∧
    (∀ (szs : List (Option Int)) (mw : List Nat),
      (∀ q, szs.getLast? = some q → q ≠ some 0) →
      (MVreads ⟨mw, 0⟩ szs).getLast? = some [] →
      (MVreads ⟨mw, 0⟩ szs).flatten = mw) := by
  have hall : ∀ s : MVStream, s.pos ≤ s.mw.length →
      MVreqSize s none = s.mw.length - s.pos →
      (MVread s none).1 = s.mw.drop s.pos := by
    intro s hpos _
    rw [MVread_bytes]
    have h1 : min s.mw.length (s.pos + MVreqSize s none) - s.pos =
        s.mw.length - s.pos := by
      simp only [MVreqSize]
      omega
    rw [h1]
    exact List.take_of_length_le (by rw [List.length_drop])
  refine ⟨?_, ?_, ?_, ?_, ?_⟩
  · intro s hpos
    constructor
    · exact hall s hpos rfl
    · intro i hi
      rw [MVread_bytes]
      have h1 : min s.mw.length (s.pos + MVreqSize s (some i)) - s.pos =
          s.mw.length - s.pos := by
        simp only [MVreqSize, if_pos hi]
        omega
      rw [h1]
      exact List.take_of_length_le (by rw [List.length_drop])
  · intro s hpos i hi
    have hq : MVreqSize s (some i) = i.toNat := by
      simp only [MVreqSize]
      rw [if_neg (by omega)]
    have h1 : min s.mw.length (s.pos + MVreqSize s (some i)) - s.pos =
        min i.toNat (s.mw.length - s.pos) := by
      rw [hq]
      omega
    refine ⟨by rw [MVread_bytes, h1], ?_⟩
    rw [MVread_bytes, h1, List.length_take, List.length_drop]
    omega
  · intro s sz hpos
    refine ⟨?_, ?_, MVread_mw s sz⟩
    · rw [MVread_pos]
      omega
    · rw [MVread_pos]
      omega
  · intro s sz hpos
    rw [MVread_bytes]
    have h1 : min s.mw.length (s.pos + MVreqSize s sz) - s.pos = 0 := by
      omega
    rw [h1, List.take_zero]
  · intro szs mw hlast hempty
    have h := MVreads_concat szs ⟨mw, 0⟩ (by simp) hlast hempty
    simpa using h

theorem mv_stream_read_spec_witness :
    (MVread ⟨[4, 5, 6], 1⟩ none).1 = [5, 6] ∧
    (MVread ⟨[4, 5, 6], 1⟩ (some 5)).1 = [5, 6] ∧
    (MVread ⟨[4, 5, 6], 3⟩ (some 2)).1 = [] ∧
    (MVreads ⟨[4, 5], 0⟩ [some 1, none, some 3]).flatten = [4, 5] := by
  refine ⟨?_, ?_, ?_, ?_⟩
  · have h := (mv_stream_read_spec.1 ⟨[4, 5, 6], 1⟩ (by decide)).1
    exact h.trans (by decide)
  · have h := (mv_stream_read_spec.2.1 ⟨[4, 5, 6], 1⟩ (by decide) 5 (by decide)).1
    exact h.trans (by decide)
  · exact mv_stream_read_spec.2.2.2.1 ⟨[4, 5, 6], 3⟩ (some 2) (by decide)
  · exact mv_stream_read_spec.2.2.2.2 [some 1, none, some 3] [4, 5]
      (by decide) (by decide)

end Prewarm
